import Mathlib

/-!
Verification development for the crackmes.one content subsystem.

The Go sources are shallowly embedded: Mongo-backed accessors become pure
functions over an explicit database value plus a connection flag, the two
HTTP handlers at the heart of the claims become step functions returning an
outcome record, and the `path/filepath` routines used by the upload handler
are reimplemented faithfully (Unix rules) on `List Char`.
-/

namespace CrackmesOne

/-! ### Go string/path primitives

Go strings are modelled as Lean `String`; concatenation is modelled by
appending the underlying character lists. -/

/-- Go string concatenation `a + b`. -/
def sconcat (a b : String) : String := ⟨a.data ++ b.data⟩

/-- Go `strings.HasPrefix(s, pre)`: byte-wise prefix test. -/
def hasPrefixStr (s pre : String) : Bool := pre.data.isPrefixOf s.data

/-- Split a character list on `'/'`, keeping empty segments
(the element-splitting step of Go `path/filepath.Clean`). -/
def splitSlash : List Char → List (List Char)
  | [] => [[]]
  | c :: rest =>
    match splitSlash rest with
    | [] => [[]]
    | s :: ss => if c = '/' then [] :: s :: ss else (c :: s) :: ss

/-- Join path components with `'/'`. -/
def joinSlash : List (List Char) → List Char
  | [] => []
  | [x] => x
  | x :: xs => x ++ '/' :: joinSlash xs

/-- The component-processing loop of Go `filepath.Clean` (Unix):
skip empty and `"."` components, resolve `".."` against the accumulator
(dropping it at the root when `rooted`, keeping it otherwise). The
accumulator holds the output components in reverse. -/
def cleanParts (rooted : Bool) : List (List Char) → List (List Char) → List (List Char)
  | acc, [] => acc.reverse
  | acc, p :: ps =>
    if p = [] ∨ p = ['.'] then cleanParts rooted acc ps
    else if p = ['.', '.'] then
      match acc with
      | [] => if rooted then cleanParts rooted [] ps else cleanParts rooted [['.', '.']] ps
      | a :: rest =>
        if a = ['.', '.'] then cleanParts rooted (['.', '.'] :: a :: rest) ps
        else cleanParts rooted rest ps
    else cleanParts rooted (p :: acc) ps

/-- Go `filepath.Clean` for Unix paths. -/
def cleanPath (s : String) : String :=
  if s.data = [] then "."
  else if s.data.head? = some '/' then
    match cleanParts true [] (splitSlash s.data) with
    | [] => "/"
    | out => ⟨'/' :: joinSlash out⟩
  else
    match cleanParts false [] (splitSlash s.data) with
    | [] => "."
    | out => ⟨joinSlash out⟩

/-- Go `filepath.Join(a, b)`: empty elements are dropped, the rest are
joined with `'/'` and the result is cleaned. -/
def pathJoin2 (a b : String) : String :=
  if a.data = [] then
    if b.data = [] then "" else cleanPath b
  else if b.data = [] then cleanPath a
  else cleanPath (sconcat a (sconcat "/" b))

/-- Go `filepath.Base` (Unix): strip trailing slashes, then keep the part
after the last remaining slash. -/
def baseName (s : String) : String :=
  if s.data = [] then "."
  else
    let stripped := (s.data.reverse.dropWhile (· = '/')).reverse
    if stripped = [] then "/"
    else ⟨(stripped.reverse.takeWhile (· ≠ '/')).reverse⟩

/-- Modelled from the spec: the external `sanitize.Name` dependency
(github.com/kennygrant/sanitize, source not in this repository). Per the
spec, filename sanitization removes every character outside an explicit
allow-list (alphanumerics, dash, dot) before concatenation. -/
def sanitizeName (s : String) : String :=
  ⟨s.data.filter (fun c => c.isAlphanum || c = '-' || c = '.')⟩

example : cleanPath "tmp/solution/../x" = "tmp/x" := by decide
example : cleanPath "a/b/" = "a/b" := by decide
example : cleanPath "/.." = "/" := by decide
example : cleanPath "../a" = "../a" := by decide
example : baseName "../../etc/passwd" = "passwd" := by decide
example : baseName "" = "." := by decide
example : baseName "a//" = "a" := by decide
example : pathJoin2 "tmp/solution" "alice+++x+++solve.zip"
    = "tmp/solution/alice+++x+++solve.zip" := by decide
example : sanitizeName "so lve.zip" = "solve.zip" := by decide
example : hasPrefixStr "tmp/solution/a" "tmp/solution/" = true := by decide

/-! ### Error taxonomy

`standardizeError` maps driver errors to the model's uniform signals:
`unavailable` when the connection check fails, `noResult` for
mongo.ErrNoDocuments; raw driver failures stay distinct. -/

inductive Err where
  | unavailable
  | noResult
  | driver (code : Nat)
  | validation (msg : String)
deriving DecidableEq

deriving instance DecidableEq for Except

/-! ### Data model (bson field structs) -/

/-- model/user.go User. -/
structure User where
  objectId : String := ""
  hexId : String := ""
  name : String := ""
  email : String := ""
  password : String := ""
  visible : Bool := false
  deleted : Bool := false
deriving DecidableEq

/-- The Crackme record (its accessor file is not under src/; the field
list follows the spec's collection contract: hexid, name, author,
visible, deleted, nb-solutions, nb-comments). ObjectIDs are modelled by
their 24-character hex rendering, with "" as the zero value. -/
structure Crackme where
  objectId : String := ""
  hexId : String := ""
  name : String := ""
  author : String := ""
  visible : Bool := false
  deleted : Bool := false
  nbSolutions : Nat := 0
  nbComments : Nat := 0
deriving DecidableEq

/-- model/solution.go Solution. -/
structure Solution where
  objectId : String := ""
  hexId : String := ""
  info : String := ""
  crackmeId : String := ""
  crackmeHexId : String := ""
  crackmeName : String := ""
  createdAt : Nat := 0
  author : String := ""
  visible : Bool := false
  deleted : Bool := false
deriving DecidableEq

/-- model/comment.go Comment. -/
structure Comment where
  objectId : String := ""
  content : String := ""
  author : String := ""
  crackmeHexId : String := ""
  crackmeName : String := ""
  createdAt : Nat := 0
  visible : Bool := false
  deleted : Bool := false
deriving DecidableEq

/-- The notification record (spec: recipient, message, created-at). -/
structure Notification where
  recipient : String
  message : String
  createdAt : Nat := 0
deriving DecidableEq

/-- The five collections of the backing store. -/
structure Db where
  users : List User := []
  crackmes : List Crackme := []
  solutions : List Solution := []
  comments : List Comment := []
  notifications : List Notification := []
deriving DecidableEq

/-! ### Entity Store operations -/

/-- ASCII case folding of a string (what the regex option `i` applies). -/
def lowerStr (s : String) : String := ⟨s.data.map Char.toLower⟩

/-- Matching of the anchored regular expression `^pat$` with option `i`
against a value, for pattern strings free of regex metacharacters (the
only ones the claims concern): equality up to case folding. -/
def ciMatch (pat value : String) : Bool := lowerStr pat = lowerStr value

/-- model/user.go CountUsers: CountDocuments over the whole collection,
guarded by CheckConnection. -/
def CountUsers (conn : Bool) (db : Db) : Except Err Nat :=
  if conn then .ok db.users.length else .error .unavailable

/-- model/user.go UserByName: FindOne on
name = primitive.Regex of "^" + name + "$" with Options "i" — an anchored
case-insensitive match — guarded by CheckConnection. -/
def UserByName (conn : Bool) (db : Db) (name : String) : Except Err User :=
  if conn then
    match db.users.find? (fun u => ciMatch name u.name) with
    | some u => .ok u
    | none => .error .noResult
  else .error .unavailable

/-- model/user.go UserByMail: same anchored case-insensitive regex match
on the email field. -/
def UserByMail (conn : Bool) (db : Db) (email : String) : Except Err User :=
  if conn then
    match db.users.find? (fun u => ciMatch email u.email) with
    | some u => .ok u
    | none => .error .noResult
  else .error .unavailable

/-- model/user.go UserByHexId: FindOne on an exact hexid match. -/
def UserByHexId (conn : Bool) (db : Db) (hexid : String) : Except Err User :=
  if conn then
    match db.users.find? (fun u => u.hexId = hexid) with
    | some u => .ok u
    | none => .error .noResult
  else .error .unavailable

/-- model/user.go UpdateUserPassword: validates its inputs, then performs
the UpdateOne store call directly — there is no CheckConnection guard, so
with the connection down the driver call itself is attempted and fails
with a driver error, not with ErrUnavailable. -/
def UpdateUserPassword (conn : Bool) (db : Db) (username hashedPassword : String) :
    Except Err Db :=
  if username = "" then .error (.validation "username cannot be empty")
  else if hashedPassword = "" then .error (.validation "hashed password cannot be empty")
  else if !conn then .error (.driver 1)
  else if db.users.any (fun u => u.name = username) then
    let setPw := fun (u : User) =>
      if u.name = username then { u with password := hashedPassword } else u
    .ok { db with users := db.users.map setPw }
  else .error (.validation "no user found with the provided username")

/-- Modelled from the spec: model/crackme.go (not under src/)
CrackmeByHexId — the Entity Store find-by-hex-id for crackmes, returning
the matching record or a not-found result, failing fast with the
store-unavailable error when the connection is down. -/
def CrackmeByHexId (conn : Bool) (db : Db) (hexid : String) : Except Err Crackme :=
  if conn then
    match db.crackmes.find? (fun c => c.hexId = hexid) with
    | some c => .ok c
    | none => .error .noResult
  else .error .unavailable

/-- Modelled from the spec: model/notification.go (not under src/)
NotificationAdd — appends a notification (recipient, message, created-at)
to the recipient's append-only list; an Entity Store operation, so it
fails with the store-unavailable error when the connection is down. -/
def NotificationAdd (conn : Bool) (db : Db) (recipient message : String) (now : Nat) :
    Except Err Db :=
  if conn then
    .ok { db with notifications := db.notifications ++ [⟨recipient, message, now⟩] }
  else .error .unavailable

/-- model/comment.go CountCommentsByCrackme: CountDocuments on
crackmehexid and visible = true (no deleted filter appears in the query). -/
def CountCommentsByCrackme (conn : Bool) (db : Db) (crackmehexid : String) : Except Err Nat :=
  if conn then
    .ok ((db.comments.filter (fun c => c.crackmeHexId = crackmehexid && c.visible)).length)
  else .error .unavailable

/-- The comparator of the Mongo sort on created_at descending: newer
documents first. -/
def newerFirst (a b : Comment) : Prop := b.createdAt ≤ a.createdAt

instance : DecidableRel newerFirst := fun a b => Nat.decLe b.createdAt a.createdAt

instance : IsTotal Comment newerFirst :=
  ⟨fun a b => Nat.le_total b.createdAt a.createdAt⟩

instance : IsTrans Comment newerFirst :=
  ⟨fun _ _ _ h1 h2 => Nat.le_trans h2 h1⟩

/-- model/comment.go CommentsByUser: Find on author and visible = true,
sorted created_at descending, limited to 50 documents. -/
def CommentsByUser (conn : Bool) (db : Db) (name : String) : Except Err (List Comment) :=
  if conn then
    .ok (((db.comments.filter (fun c => c.author = name && c.visible)).insertionSort
      newerFirst).take 50)
  else .error .unavailable

/-- model/comment.go CommentCreate: fetches the crackme (to denormalize
its name), then inserts the comment, created immediately visible. No
counter update happens anywhere in this function. -/
def CommentCreate (conn : Bool) (db : Db) (content username crackmehexid : String)
    (freshId : String) (now : Nat) : Except Err Db :=
  match CrackmeByHexId conn db crackmehexid with
  | .error e => .error e
  | .ok crackme =>
    if conn then
      .ok { db with comments := db.comments ++
        [{ objectId := freshId, content := content, author := username,
           crackmeHexId := crackmehexid, crackmeName := crackme.name,
           createdAt := now, visible := true, deleted := false }] }
    else .error .unavailable

/-- model/solution.go CountSolutionsByCrackme: CountDocuments on
crackmeid = ObjectIDFromHex(crackmehexid) and visible = true (no deleted
filter appears in the query). ObjectIDs are modelled by their hex
rendering, so the conversion is the identity. -/
def CountSolutionsByCrackme (conn : Bool) (db : Db) (crackmehexid : String) : Except Err Nat :=
  if conn then
    .ok ((db.solutions.filter (fun s => s.crackmeId = crackmehexid && s.visible)).length)
  else .error .unavailable

/-- model/solution.go SolutionsByUserAndCrackMe: looks up the crackme
(the error is discarded — a failed lookup leaves the zero-value crackme),
then FindOne on crackmeid = crackme.ObjectId and author = username. No
visibility or deletion filter is applied. -/
def SolutionsByUserAndCrackMe (conn : Bool) (db : Db) (username crackmehexid : String) :
    Except Err Solution :=
  let crackme := match CrackmeByHexId conn db crackmehexid with
    | .ok c => c
    | .error _ => {}
  if conn then
    match db.solutions.find? (fun s => s.crackmeId = crackme.objectId && s.author = username) with
    | some s => .ok s
    | none => .error .noResult
  else .error .unavailable

/-- model/solution.go SolutionCreate: fetches the crackme, then inserts a
new solution in the Pending state (visible = false); its hex id is the
hex rendering of the freshly generated ObjectID. -/
def SolutionCreate (conn : Bool) (db : Db) (info username crackmehexid : String)
    (freshId : String) (now : Nat) : Except Err Db :=
  match CrackmeByHexId conn db crackmehexid with
  | .error e => .error e
  | .ok crackme =>
    if conn then
      .ok { db with solutions := db.solutions ++
        [{ objectId := freshId, hexId := freshId, info := info,
           crackmeId := crackme.objectId, crackmeHexId := crackme.hexId,
           crackmeName := crackme.name, createdAt := now, author := username,
           visible := false, deleted := false }] }
    else .error .unavailable

/-! ### Storage configuration (app/shared/storage/storage.go) -/

/-- storage.go Info. -/
structure Info where
  crackmePath : String
  solutionPath : String

/-- storage.go Configure: environment variables with fallback defaults
(os.Getenv yields "" when a variable is unset). -/
def Configure (crackmeEnv solutionEnv : String) : Info :=
  { crackmePath := if crackmeEnv = "" then "tmp/crackme" else crackmeEnv,
    solutionPath := if solutionEnv = "" then "tmp/solution" else solutionEnv }

/-- storage.go GetSolutionPath, with the configuration resolved once at
process start from an unset environment (the documented default). -/
def GetSolutionPath : String := (Configure "" "").solutionPath

/-! ### Controllers -/

/-- The flash messages the two handlers can leave (texts elided). -/
inductive Flash where
  | duplicateSolution
  | captchaInvalid
  | missingField
  | fileTooLarge
  | invalidPath
  | commentFailed
  | commentUploaded
  | solutionUploaded
deriving DecidableEq

/-- Observable outcome of one UploadSolutionPOST request: the store
afterwards, whether the payload was read into memory, the path written to
disk (if any), the final flash and whether the handler reported success. -/
structure UploadOutcome where
  db : Db
  payloadRead : Bool := false
  fileWritten : Option String := none
  flash : Flash
  success : Bool := false
deriving DecidableEq

/-- unnamed/part_005 UploadSolutionPOST as a step function. Inputs: the
connection state, the store, the session username, the crackme hex id
from the route, whether the reCAPTCHA verified, whether a file field was
present, the declared content length, the raw uploaded filename, the info
field, the ObjectID generated for the new solution and the current time.
Disk writes and the in-memory read are assumed to succeed. The body
mirrors the source line by line, including the discarded errors. -/
def UploadSolutionPOST (conn : Bool) (db : Db) (username hexidcrackme : String)
    (captchaOk filePresent : Bool) (declaredSize : Nat) (rawFilename info : String)
    (freshId : String) (now : Nat) : UploadOutcome :=
  let solution := match SolutionsByUserAndCrackMe conn db username hexidcrackme with
    | .ok s => s
    | .error _ => {}
  if solution ≠ ({} : Solution) then
    { db := db, flash := .duplicateSolution }
  else if !captchaOk then
    { db := db, flash := .captchaInvalid }
  else if !filePresent then
    { db := db, flash := .missingField }
  else if declaredSize > 5000000 then
    { db := db, flash := .fileTooLarge }
  else
    let db1 := match SolutionCreate conn db info username hexidcrackme freshId now with
      | .ok d => d
      | .error _ => db
    let solution1 := match SolutionsByUserAndCrackMe conn db1 username hexidcrackme with
      | .ok s => s
      | .error _ => {}
    let filename := sanitizeName (baseName rawFilename)
    let piece := sconcat username (sconcat "+++" (sconcat solution1.hexId (sconcat "+++" filename)))
    let safePath := pathJoin2 GetSolutionPath piece
    if !hasPrefixStr (cleanPath safePath) (sconcat GetSolutionPath "/") then
      { db := db1, payloadRead := true, flash := .invalidPath }
    else
      let db2 := match CrackmeByHexId conn db1 hexidcrackme with
        | .ok crackme =>
          let msg := sconcat "Your solution for " (sconcat crackme.name " is waiting approval!")
          match NotificationAdd conn db1 username msg now with
          | .ok d => d
          | .error _ => db1
        | .error _ => db1
      { db := db2, payloadRead := true, fileWritten := some safePath,
        flash := .solutionUploaded, success := true }

/-- Observable outcome of one LeaveCommentPOST request. -/
structure CommentOutcome where
  db : Db
  flash : Flash
  success : Bool := false
deriving DecidableEq

/-- unnamed/part_004 LeaveCommentPOST as a step function. Inputs: the
connection state, the store, the session username, the crackme hex id
from the route, the comment text, whether the required field was present,
whether the reCAPTCHA verified, the ObjectID generated for the new
comment and the current time. -/
def LeaveCommentPOST (conn : Bool) (db : Db) (username hexid commentText : String)
    (fieldPresent captchaOk : Bool) (freshId : String) (now : Nat) : CommentOutcome :=
  if !fieldPresent then { db := db, flash := .missingField }
  else if !captchaOk then { db := db, flash := .captchaInvalid }
  else
    match CommentCreate conn db commentText username hexid freshId now with
    | .error _ => { db := db, flash := .commentFailed }
    | .ok db1 =>
      let db2 := match CrackmeByHexId conn db1 hexid with
        | .ok crackme =>
          if crackme.author ≠ username then
            let msg := sconcat "New comment on your crackme "
              (sconcat crackme.name (sconcat " by: " username))
            match NotificationAdd conn db1 crackme.author msg now with
            | .ok d => d
            | .error _ => db1
          else db1
        | .error _ => db1
      { db := db2, flash := .commentUploaded, success := true }

/-! ### Lemmas about the path model -/

/-- The `".."` path component. -/
def dd : List Char := ['.', '.']

/-- A clean path component: nonempty, not `"."`, not `"/"`-containing. -/
def GoodSeg (x : List Char) : Prop := x ≠ [] ∧ x ≠ ['.'] ∧ '/' ∉ x

theorem splitSlash_eq_cons (l : List Char) : ∃ s ss, splitSlash l = s :: ss := by
  induction l with
  | nil => exact ⟨[], [], rfl⟩
  | cons c rest ih =>
    obtain ⟨s, ss, h⟩ := ih
    simp only [splitSlash, h]
    split
    · exact ⟨[], s :: ss, rfl⟩
    · exact ⟨c :: s, ss, rfl⟩

theorem splitSlash_no_slash (l : List Char) : ∀ x ∈ splitSlash l, '/' ∉ x := by
  induction l with
  | nil =>
    intro x hx
    simp only [splitSlash, List.mem_singleton] at hx
    subst hx; simp
  | cons c rest ih =>
    obtain ⟨s, ss, h⟩ := splitSlash_eq_cons rest
    have hs : ∀ y ∈ s :: ss, '/' ∉ y := h ▸ ih
    intro x hx
    simp only [splitSlash, h] at hx
    by_cases hc : c = '/'
    · simp only [hc, if_pos rfl] at hx
      rcases List.mem_cons.mp hx with h1 | h1
      · subst h1; simp
      · exact hs x h1
    · simp only [if_neg hc] at hx
      rcases List.mem_cons.mp hx with h1 | h1
      · subst h1
        intro hmem
        rcases List.mem_cons.mp hmem with h2 | h2
        · exact hc h2.symm
        · exact hs s (by simp) h2
      · exact hs x (List.mem_cons_of_mem s h1)

theorem splitSlash_no_slash_eq (x : List Char) (h : '/' ∉ x) : splitSlash x = [x] := by
  induction x with
  | nil => simp [splitSlash]
  | cons c cs ih =>
    have hc : c ≠ '/' := fun hc => h (hc ▸ List.mem_cons_self c cs)
    have hcs : '/' ∉ cs := fun hm => h (List.mem_cons_of_mem c hm)
    simp only [splitSlash, ih hcs, if_neg hc]

theorem splitSlash_append (x : List Char) (hx : '/' ∉ x) (l : List Char) :
    splitSlash (x ++ '/' :: l) = x :: splitSlash l := by
  induction x with
  | nil =>
    obtain ⟨s, ss, h⟩ := splitSlash_eq_cons l
    simp only [List.nil_append, splitSlash, h]
    simp
  | cons c cs ih =>
    have hc : c ≠ '/' := fun hcc => hx (hcc ▸ List.mem_cons_self c cs)
    have hcs : '/' ∉ cs := fun hm => hx (List.mem_cons_of_mem c hm)
    have h2 := ih hcs
    simp only [List.cons_append, splitSlash, List.append_eq]
    rw [h2]
    simp [hc]

theorem splitSlash_joinSlash (out : List (List Char)) (hne : out ≠ [])
    (hs : ∀ x ∈ out, '/' ∉ x) : splitSlash (joinSlash out) = out := by
  induction out with
  | nil => exact absurd rfl hne
  | cons x xs ih =>
    cases xs with
    | nil =>
      simp only [joinSlash]
      exact splitSlash_no_slash_eq x (hs x (by simp))
    | cons y ys =>
      have hx : '/' ∉ x := hs x (by simp)
      have hrest : ∀ z ∈ y :: ys, '/' ∉ z := fun z hz => hs z (List.mem_cons_of_mem x hz)
      simp only [joinSlash, splitSlash_append x hx, ih (by simp) hrest]

theorem joinSlash_cons (x : List Char) (xs : List (List Char)) :
    ∃ t, joinSlash (x :: xs) = x ++ t := by
  cases xs with
  | nil => exact ⟨[], by simp [joinSlash]⟩
  | cons y ys => exact ⟨'/' :: joinSlash (y :: ys), rfl⟩

theorem cleanParts_skip (rooted : Bool) (acc ps : List (List Char)) (p : List Char)
    (h : p = [] ∨ p = ['.']) :
    cleanParts rooted acc (p :: ps) = cleanParts rooted acc ps := by
  simp only [cleanParts, if_pos h]

theorem cleanParts_dd_nil (rooted : Bool) (ps : List (List Char)) :
    cleanParts rooted [] (dd :: ps)
      = if rooted then cleanParts rooted [] ps else cleanParts rooted [dd] ps := by
  simp [cleanParts, dd]

theorem cleanParts_dd_cons (rooted : Bool) (a : List Char) (rest ps : List (List Char)) :
    cleanParts rooted (a :: rest) (dd :: ps)
      = if a = dd then cleanParts rooted (dd :: a :: rest) ps
        else cleanParts rooted rest ps := by
  simp [cleanParts, dd]

theorem cleanParts_push (rooted : Bool) (acc ps : List (List Char)) (p : List Char)
    (h1 : ¬(p = [] ∨ p = ['.'])) (h2 : p ≠ dd) :
    cleanParts rooted acc (p :: ps) = cleanParts rooted (p :: acc) ps := by
  simp only [dd] at h2
  simp only [cleanParts]
  rw [if_neg h1, if_neg h2]

/-- The structural invariant of the Clean loop: all output components are
clean segments, and `".."` components occur only as a leading run. -/
theorem cleanParts_spec (rooted : Bool) (parts : List (List Char)) :
    ∀ acc : List (List Char),
    (∀ x ∈ parts, '/' ∉ x) →
    (∀ x ∈ acc, GoodSeg x) →
    (∃ pre k, acc = pre ++ List.replicate k dd ∧ dd ∉ pre) →
    (∀ x ∈ cleanParts rooted acc parts, GoodSeg x) ∧
    (∃ k rest, cleanParts rooted acc parts = List.replicate k dd ++ rest ∧ dd ∉ rest) := by
  have hddGood : GoodSeg dd := ⟨by decide, by decide, by decide⟩
  induction parts with
  | nil =>
    intro acc _ hgood hdots
    obtain ⟨pre, k, hacc, hnd⟩ := hdots
    refine ⟨?_, k, pre.reverse, ?_, ?_⟩
    · intro x hx
      simp only [cleanParts] at hx
      exact hgood x (List.mem_reverse.mp hx)
    · simp only [cleanParts, hacc, List.reverse_append, List.reverse_replicate]
    · simpa using hnd
  | cons p ps ih =>
    intro acc hparts hgood hdots
    have hps : ∀ x ∈ ps, '/' ∉ x := fun x hx => hparts x (List.mem_cons_of_mem p hx)
    by_cases h1 : p = [] ∨ p = ['.']
    · rw [cleanParts_skip rooted acc ps p h1]
      exact ih acc hps hgood hdots
    · by_cases h2 : p = dd
      · subst h2
        obtain ⟨pre, k, hacc, hnd⟩ := hdots
        cases acc with
        | nil =>
          rw [cleanParts_dd_nil]
          by_cases hr : rooted
          · rw [if_pos hr]
            exact ih [] hps (by simp) ⟨[], 0, by simp, by simp⟩
          · rw [if_neg hr]
            refine ih [dd] hps ?_ ⟨[], 1, by simp, by simp⟩
            intro x hx
            simp only [List.mem_singleton] at hx
            subst hx; exact hddGood
        | cons a rest =>
          rw [cleanParts_dd_cons]
          by_cases ha : a = dd
          · rw [if_pos ha, ha]
            rw [ha] at hacc
            -- the accumulator is an all-".." run
            have hpre : pre = [] := by
              cases pre with
              | nil => rfl
              | cons q qre =>
                rw [List.cons_append] at hacc
                injection hacc with h41 h42
                refine absurd ?_ hnd
                rw [h41]
                exact List.mem_cons_self q qre
            subst hpre
            simp only [List.nil_append] at hacc
            refine ih (dd :: dd :: rest) hps ?_ ⟨[], k + 1, ?_, by simp⟩
            · intro y hy
              rcases List.mem_cons.mp hy with h3 | h3
              · subst h3; exact hddGood
              · exact hgood y (by rw [ha]; exact h3)
            · simp only [List.nil_append, List.replicate_succ, ← hacc]
          · rw [if_neg ha]
            have hrest : ∃ qre, pre = a :: qre ∧ rest = qre ++ List.replicate k dd ∧ dd ∉ qre := by
              cases pre with
              | nil =>
                simp only [List.nil_append] at hacc
                cases k with
                | zero => simp at hacc
                | succ k' =>
                  rw [List.replicate_succ] at hacc
                  injection hacc with h41 h42
                  exact absurd h41 ha
              | cons q qre =>
                rw [List.cons_append] at hacc
                injection hacc with h41 h42
                refine ⟨qre, by rw [h41], h42, fun hm => hnd (List.mem_cons_of_mem q hm)⟩
            obtain ⟨qre, hpre, hr1, hr2⟩ := hrest
            exact ih rest hps (fun y hy => hgood y (List.mem_cons_of_mem a hy)) ⟨qre, k, hr1, hr2⟩
      · rw [cleanParts_push rooted acc ps p h1 h2]
        push_neg at h1
        obtain ⟨pre, k, hacc, hnd⟩ := hdots
        refine ih (p :: acc) hps ?_ ⟨p :: pre, k, by simp [hacc], ?_⟩
        · intro y hy
          rcases List.mem_cons.mp hy with h3 | h3
          · subst h3; exact ⟨h1.1, h1.2, hparts _ (by simp)⟩
          · exact hgood y h3
        · intro hm
          rcases List.mem_cons.mp hm with h3 | h3
          · exact h2 h3.symm
          · exact hnd h3

/-- On a run of components that are clean and not `".."`, the Clean loop
just pushes everything. -/
theorem cleanParts_push_all (rooted : Bool) (rest : List (List Char)) :
    ∀ acc, (∀ x ∈ rest, GoodSeg x ∧ x ≠ dd) →
    cleanParts rooted acc rest = acc.reverse ++ rest := by
  induction rest with
  | nil => intro acc _; simp [cleanParts]
  | cons r rs ih =>
    intro acc h
    have hr := h r (by simp)
    have h1 : ¬(r = [] ∨ r = ['.']) := by
      rintro (h2 | h2)
      · exact hr.1.1 h2
      · exact hr.1.2.1 h2
    rw [cleanParts_push rooted acc rs r h1 hr.2]
    rw [ih (r :: acc) (fun x hx => h x (List.mem_cons_of_mem r hx))]
    simp

/-- The Clean loop (non-rooted) is the identity on lists of clean
components whose `".."`s form a leading run. -/
theorem cleanParts_dots (rest : List (List Char))
    (h : ∀ x ∈ rest, GoodSeg x ∧ x ≠ dd) :
    ∀ k j, cleanParts false (List.replicate j dd) (List.replicate k dd ++ rest)
      = List.replicate (j + k) dd ++ rest := by
  intro k
  induction k with
  | zero =>
    intro j
    simp only [List.replicate_zero, List.nil_append, Nat.add_zero]
    rw [cleanParts_push_all false rest _ h]
    simp [List.reverse_replicate]
  | succ k' ih =>
    intro j
    rw [List.replicate_succ, List.cons_append]
    cases j with
    | zero =>
      simp only [List.replicate_zero]
      rw [cleanParts_dd_nil]
      simp only [Bool.false_eq_true, if_false]
      have h2 : [dd] = List.replicate 1 dd := by simp
      rw [h2, ih 1]
      have h3 : 1 + k' = 0 + (k' + 1) := by omega
      rw [h3]
    | succ j' =>
      rw [List.replicate_succ, cleanParts_dd_cons, if_pos rfl]
      have h2 : dd :: dd :: List.replicate j' dd = List.replicate (j' + 2) dd := by
        rw [List.replicate_succ, List.replicate_succ]
      rw [h2, ih (j' + 2)]
      have h3 : j' + 2 + k' = j' + 1 + (k' + 1) := by omega
      rw [h3]

theorem isPrefixOf_exists {α : Type} [BEq α] [LawfulBEq α] (l1 l2 : List α)
    (h : l1.isPrefixOf l2 = true) : ∃ t, l2 = l1 ++ t := by
  induction l1 generalizing l2 with
  | nil => exact ⟨l2, rfl⟩
  | cons a as ih =>
    cases l2 with
    | nil => simp [List.isPrefixOf] at h
    | cons b bs =>
      simp only [List.isPrefixOf, Bool.and_eq_true, beq_iff_eq] at h
      obtain ⟨t, ht⟩ := ih bs h.2
      exact ⟨t, by rw [h.1, ht]; rfl⟩

/-- What it means for a constructed path to resolve strictly inside the
storage root: its lexical normalization has `root ++ "/"` as a prefix and
consists solely of clean components — none empty, none `"."`, none
`".."` — so no residual segment can escape the root. -/
def ResolvesInside (root p : String) : Prop :=
  hasPrefixStr (cleanPath p) (sconcat root "/") = true ∧
  ∀ c ∈ splitSlash (cleanPath p).data, c ≠ [] ∧ c ≠ ['.'] ∧ c ≠ dd

/-- If the upload handler's prefix check passes for a path joined under
the default solution root, the joined path resolves strictly inside the
root: its normalization keeps the root as a prefix and retains no empty,
`"."` or `".."` component. -/
theorem joined_path_resolvesInside (piece : String) (hpiece : piece.data ≠ [])
    (hchk : hasPrefixStr (cleanPath (pathJoin2 GetSolutionPath piece))
        (sconcat GetSolutionPath "/") = true) :
    ResolvesInside GetSolutionPath (pathJoin2 GetSolutionPath piece) := by
  have hrootne : ¬((GetSolutionPath).data = []) := by decide
  have hjoin : pathJoin2 GetSolutionPath piece
      = cleanPath (sconcat GetSolutionPath (sconcat "/" piece)) := by
    unfold pathJoin2
    rw [if_neg hrootne, if_neg hpiece]
  set s0 := sconcat GetSolutionPath (sconcat "/" piece) with hs0def
  have hs0 : s0.data = (GetSolutionPath).data ++ (("/").data ++ piece.data) := rfl
  have hg : (GetSolutionPath).data = 't' :: ("mp/solution").data := by decide
  have hne' : ¬(s0.data = []) := by
    rw [hs0, hg, List.cons_append]
    simp
  have hnotroot : ¬(s0.data.head? = some '/') := by
    rw [hs0, hg, List.cons_append]
    simp only [List.head?_cons, Option.some.injEq]
    decide
  obtain ⟨hgoodAll, k, rest, hout, hndrest⟩ :=
    cleanParts_spec false (splitSlash s0.data) [] (splitSlash_no_slash s0.data)
      (by simp) ⟨[], 0, by simp, by simp⟩
  cases houtc : cleanParts false [] (splitSlash s0.data) with
  | nil =>
    exfalso
    have hclean0 : cleanPath s0 = "." := by
      unfold cleanPath
      rw [if_neg hne', if_neg hnotroot, houtc]
    rw [hjoin, hclean0] at hchk
    exact absurd hchk (by decide)
  | cons o os =>
    rw [houtc] at hgoodAll hout
    set q : String := ⟨joinSlash (o :: os)⟩ with hqdef
    have hclean2 : cleanPath s0 = q := by
      unfold cleanPath
      rw [if_neg hne', if_neg hnotroot, houtc]
    rw [hjoin, hclean2] at hchk ⊢
    obtain ⟨t, hjoin2⟩ := joinSlash_cons o os
    have hqdata : q.data = o ++ t := hjoin2
    have hogood := hgoodAll o (by simp)
    obtain ⟨c, ocs, hoc⟩ : ∃ c ocs, o = c :: ocs := by
      cases hcas : o with
      | nil => exact absurd hcas hogood.1
      | cons c ocs => exact ⟨c, ocs, rfl⟩
    have hcslash : c ≠ '/' := by
      intro hc
      exact hogood.2.2 (by rw [hoc, hc]; exact List.mem_cons_self _ _)
    have hqne : ¬(q.data = []) := by
      rw [hqdata, hoc, List.cons_append]
      simp
    have hqhead : ¬(q.data.head? = some '/') := by
      rw [hqdata, hoc, List.cons_append]
      simp only [List.head?_cons, Option.some.injEq]
      exact hcslash
    have hsplit : splitSlash q.data = o :: os := by
      rw [hqdata, ← hjoin2]
      exact splitSlash_joinSlash (o :: os) (by simp)
        (fun x hx => (hgoodAll x hx).2.2)
    have hrestgood : ∀ x ∈ rest, GoodSeg x ∧ x ≠ dd := by
      intro x hx
      refine ⟨hgoodAll x ?_, fun hd => hndrest (hd ▸ hx)⟩
      rw [hout]
      exact List.mem_append_right _ hx
    have hcp2 : cleanParts false [] (splitSlash q.data) = o :: os := by
      rw [hsplit, hout]
      have h9 := cleanParts_dots rest hrestgood k 0
      simpa using h9
    have hcleanq : cleanPath q = q := by
      unfold cleanPath
      rw [if_neg hqne, if_neg hqhead, hcp2]
    have hchkq : hasPrefixStr q (sconcat GetSolutionPath "/") = true := by
      rw [← hcleanq]; exact hchk
    have hpre : (sconcat GetSolutionPath "/").data = 't' :: ("mp/solution/").data := by
      decide
    have hk0 : k = 0 := by
      by_contra hk
      obtain ⟨k', rfl⟩ : ∃ k', k = k' + 1 := ⟨k - 1, by omega⟩
      rw [List.replicate_succ] at hout
      injection hout with ho1 _
      obtain ⟨t2, ht2⟩ := isPrefixOf_exists _ _ hchkq
      have h5 : q.data = '.' :: ('.' :: t) := by
        rw [hqdata, ho1]
        rfl
      have h6 : ('t' :: ("mp/solution/").data) ++ t2 = '.' :: ('.' :: t) := by
        rw [← hpre, ← ht2]
        exact h5
      rw [List.cons_append] at h6
      injection h6 with h7 _
      exact absurd h7 (by decide)
    rw [hk0] at hout
    simp only [List.replicate_zero, List.nil_append] at hout
    constructor
    · rw [hcleanq]; exact hchkq
    · intro cc hcc
      rw [hcleanq, hsplit] at hcc
      have hgc := hgoodAll cc hcc
      refine ⟨hgc.1, hgc.2.1, fun hd => ?_⟩
      rw [hout] at hcc
      exact hndrest (hd ▸ hcc)

theorem sconcat_piece_ne (u r : String) : (sconcat u (sconcat "+++" r)).data ≠ [] := by
  show u.data ++ ('+' :: '+' :: '+' :: r.data) ≠ []
  intro hh
  have h2 := List.append_eq_nil.mp hh
  simp at h2

/-- Whenever UploadSolutionPOST reports a written file, the written path
is the secure join of the solution root with a nonempty single component,
and the handler's prefix check passed for it. -/
theorem upload_fileWritten_check (conn : Bool) (db : Db) (username hexidcrackme : String)
    (captchaOk filePresent : Bool) (declaredSize : Nat) (rawFilename info freshId : String)
    (now : Nat) (p : String)
    (h : (UploadSolutionPOST conn db username hexidcrackme captchaOk filePresent declaredSize
        rawFilename info freshId now).fileWritten = some p) :
    ∃ piece, p = pathJoin2 GetSolutionPath piece ∧ piece.data ≠ [] ∧
      hasPrefixStr (cleanPath (pathJoin2 GetSolutionPath piece))
        (sconcat GetSolutionPath "/") = true := by
  unfold UploadSolutionPOST at h
  simp only [] at h
  split at h
  · simp at h
  · split at h
    · simp at h
    · split at h
      · simp at h
      · split at h
        · simp at h
        · split at h
          · simp at h
          · rename_i hcheck
            rw [Option.some.injEq] at h
            subst h
            exact ⟨_, rfl, sconcat_piece_ne _ _, by simpa using hcheck⟩

def exampleCrackme : Crackme :=
  { objectId := "c1hex", hexId := "c1hex", name := "X", author := "bob", visible := true }

def exampleDb : Db := { crackmes := [exampleCrackme] }

/-! ### Claims -/

/-- C1: for every uploaded solution filename — including traversal
payloads such as "../../etc/passwd" — whenever UploadSolutionPOST writes
a file its constructed path resolves strictly inside the configured
solution storage root (otherwise the request is rejected and nothing is
written, by construction of the outcome); and for the clean filename
"solve.zip" with username "alice" and solution hex id
507f191e810c19729de860ea the constructed path is exactly
tmp/solution/alice+++507f191e810c19729de860ea+++solve.zip
(and the traversal payload is reduced to its sanitized base name). -/
theorem upload_path_containment :
    (∀ (conn : Bool) (db : Db) (username hexidcrackme : String)
      (captchaOk filePresent : Bool) (declaredSize : Nat)
      (rawFilename info freshId : String) (now : Nat) (p : String),
      (UploadSolutionPOST conn db username hexidcrackme captchaOk filePresent declaredSize
        rawFilename info freshId now).fileWritten = some p →
      ResolvesInside GetSolutionPath p) ∧
    (UploadSolutionPOST true exampleDb "alice" "c1hex" true true 100 "solve.zip" "w"
      "507f191e810c19729de860ea" 5).fileWritten
      = some "tmp/solution/alice+++507f191e810c19729de860ea+++solve.zip" ∧
    (UploadSolutionPOST true exampleDb "alice" "c1hex" true true 100 "../../etc/passwd" "w"
      "507f191e810c19729de860ea" 5).fileWritten
      = some "tmp/solution/alice+++507f191e810c19729de860ea+++passwd" := by
  refine ⟨?_, by decide, by decide⟩
  intro conn db username hexidcrackme captchaOk filePresent declaredSize raw info freshId now p h
  obtain ⟨piece, rfl, hne, hchk⟩ := upload_fileWritten_check conn db username hexidcrackme
    captchaOk filePresent declaredSize raw info freshId now p h
  exact joined_path_resolvesInside piece hne hchk

/-- Witness for C1: the containment conclusion instantiated at the
concrete upload of "solve.zip" by alice. -/
theorem upload_path_containment_witness :
    ResolvesInside GetSolutionPath
      "tmp/solution/alice+++507f191e810c19729de860ea+++solve.zip" :=
  upload_path_containment.1 true exampleDb "alice" "c1hex" true true 100 "solve.zip" "w"
    "507f191e810c19729de860ea" 5
    "tmp/solution/alice+++507f191e810c19729de860ea+++solve.zip" (by decide)

def elvisUser : User :=
  { objectId := "u1", hexId := "u1", name := "elvis", email := "elvis@graceland.example",
    password := "h", visible := true }

def elvisDb : Db := { users := [elvisUser] }

/-- C2 counterexample: with a stored user named "elvis", a UserByName
lookup for "Elvis" returns that very user — user lookup by name is not an
exact case-sensitive match (the query is an anchored regex with the
case-insensitive option). -/
theorem userByName_case_counterexample :
    elvisUser.name = "elvis" ∧ UserByName true elvisDb "Elvis" = .ok elvisUser := by decide

/-- C2 (amended): user lookup by name or email is an anchored
case-insensitive match: a returned user agrees with the query up to
ASCII case folding, and any stored user agreeing with the query up to
case folding makes the lookup succeed. -/
theorem userByName_case_insensitive :
    (∀ (db : Db) (name : String) (u : User),
      UserByName true db name = .ok u → lowerStr u.name = lowerStr name) ∧
    (∀ (db : Db) (email : String) (u : User),
      UserByMail true db email = .ok u → lowerStr u.email = lowerStr email) ∧
    (∀ (db : Db) (name : String),
      (∃ u ∈ db.users, lowerStr u.name = lowerStr name) →
      ∃ u, UserByName true db name = .ok u) := by
  refine ⟨?_, ?_, ?_⟩
  · intro db name u h
    unfold UserByName at h
    rw [if_pos rfl] at h
    cases hf : db.users.find? (fun v => ciMatch name v.name) with
    | none => rw [hf] at h; exact absurd h (by simp)
    | some v =>
      rw [hf] at h
      injection h with h
      subst h
      have hp := List.find?_some hf
      exact (of_decide_eq_true hp).symm
  · intro db email u h
    unfold UserByMail at h
    rw [if_pos rfl] at h
    cases hf : db.users.find? (fun v => ciMatch email v.email) with
    | none => rw [hf] at h; exact absurd h (by simp)
    | some v =>
      rw [hf] at h
      injection h with h
      subst h
      have hp := List.find?_some hf
      exact (of_decide_eq_true hp).symm
  · intro db name hex
    obtain ⟨u, hu, heq⟩ := hex
    have hsome : (db.users.find? (fun v => ciMatch name v.name)).isSome = true := by
      rw [List.find?_isSome]
      exact ⟨u, hu, decide_eq_true heq.symm⟩
    obtain ⟨v, hv⟩ := Option.isSome_iff_exists.mp hsome
    refine ⟨v, ?_⟩
    unfold UserByName
    rw [if_pos rfl, hv]

/-- Witness for C2 (amended) at the stored user "elvis" and the query
"Elvis". -/
theorem userByName_case_insensitive_witness :
    lowerStr elvisUser.name = lowerStr "Elvis" :=
  userByName_case_insensitive.1 elvisDb "Elvis" elvisUser (by decide)

/-- C3: after one successful comment creation on a crackme whose
NbComments is 0, the handler reports success and the comment is counted,
but the stored crackme record — including its NbComments field — is
untouched: no increment-comments call exists anywhere on the
CommentCreate / LeaveCommentPOST path. -/
theorem commentCreate_does_not_increment :
    (LeaveCommentPOST true exampleDb "carol" "c1hex" "nice" true true "cm1" 5).success = true ∧
    (LeaveCommentPOST true exampleDb "carol" "c1hex" "nice" true true "cm1" 5).db.crackmes
      = [exampleCrackme] ∧
    exampleCrackme.nbComments = 0 ∧
    CountCommentsByCrackme true
      (LeaveCommentPOST true exampleDb "carol" "c1hex" "nice" true true "cm1" 5).db "c1hex"
      = .ok 1 := by decide

def deletedVisibleSolution : Solution :=
  { objectId := "s1", hexId := "s1", crackmeId := "c1hex", crackmeHexId := "c1hex",
    author := "dave", visible := true, deleted := true }

def deletedVisibleComment : Comment :=
  { objectId := "m9", content := "x", author := "dave", crackmeHexId := "c1hex",
    visible := true, deleted := true }

def deletedDb : Db :=
  { crackmes := [exampleCrackme], solutions := [deletedVisibleSolution],
    comments := [deletedVisibleComment] }

/-- C4 counterexample: an entity with deleted=true but visible=true is
counted by both per-crackme count queries — the queries filter on visible
only, never on deleted. -/
theorem count_deleted_counterexample :
    deletedVisibleSolution.deleted = true ∧ deletedVisibleComment.deleted = true ∧
    CountSolutionsByCrackme true deletedDb "c1hex" = .ok 1 ∧
    CountCommentsByCrackme true deletedDb "c1hex" = .ok 1 := by decide

/-- C4 (amended): the per-crackme count queries filter on visible=true
only; a deleted entity is excluded exactly when its visible flag is
false, so under the deletion invariant (deleted implies invisible) no
deleted entity is counted. -/
theorem count_excludes_deleted_when_invisible :
    ∀ (db : Db) (hexid : String),
    (∀ s ∈ db.solutions, s.deleted = true → s.visible = false) →
    (∀ c ∈ db.comments, c.deleted = true → c.visible = false) →
    CountSolutionsByCrackme true db hexid
      = .ok ((db.solutions.filter
          (fun s => s.crackmeId = hexid && s.visible && !s.deleted)).length) ∧
    CountCommentsByCrackme true db hexid
      = .ok ((db.comments.filter
          (fun c => c.crackmeHexId = hexid && c.visible && !c.deleted)).length) := by
  intro db hexid hs hc
  constructor
  · unfold CountSolutionsByCrackme
    rw [if_pos rfl]
    have heq : db.solutions.filter (fun s => s.crackmeId = hexid && s.visible)
        = db.solutions.filter (fun s => s.crackmeId = hexid && s.visible && !s.deleted) := by
      apply List.filter_congr
      intro s hsm
      cases hd : s.deleted
      · simp
      · have hv := hs s hsm hd
        simp [hv]
    rw [heq]
  · unfold CountCommentsByCrackme
    rw [if_pos rfl]
    have heq : db.comments.filter (fun c => c.crackmeHexId = hexid && c.visible)
        = db.comments.filter (fun c => c.crackmeHexId = hexid && c.visible && !c.deleted) := by
      apply List.filter_congr
      intro c hcm
      cases hd : c.deleted
      · simp
      · have hv := hc c hcm hd
        simp [hv]
    rw [heq]

def deletedInvisibleDb : Db :=
  { crackmes := [exampleCrackme],
    solutions := [
      { objectId := "s1", hexId := "s1", crackmeId := "c1hex", crackmeHexId := "c1hex",
        author := "dave", visible := true, deleted := false },
      { objectId := "s2", hexId := "s2", crackmeId := "c1hex", crackmeHexId := "c1hex",
        author := "erin", visible := false, deleted := true } ],
    comments := [
      { objectId := "m1", content := "x", author := "dave", crackmeHexId := "c1hex",
        visible := false, deleted := true } ] }

/-- Witness for C4 (amended) on a store obeying the deletion invariant. -/
theorem count_excludes_deleted_witness :
    CountSolutionsByCrackme true deletedInvisibleDb "c1hex"
      = .ok ((deletedInvisibleDb.solutions.filter
          (fun s => s.crackmeId = "c1hex" && s.visible && !s.deleted)).length) ∧
    CountCommentsByCrackme true deletedInvisibleDb "c1hex"
      = .ok ((deletedInvisibleDb.comments.filter
          (fun c => c.crackmeHexId = "c1hex" && c.visible && !c.deleted)).length) :=
  count_excludes_deleted_when_invisible deletedInvisibleDb "c1hex" (by decide) (by decide)

/-- C5: when the store insert of the solution record fails (store
unavailable), UploadSolutionPOST merely logs the error and carries on: it
still reads the payload, writes the file — under an empty solution hex
id — and reports success, while no record was persisted. The error is
neither surfaced nor does it abort the disk write. -/
theorem upload_store_failure_still_writes :
    SolutionCreate false exampleDb "w" "alice" "c1hex" "507f191e810c19729de860ea" 5
      = .error .unavailable ∧
    (UploadSolutionPOST false exampleDb "alice" "c1hex" true true 100 "solve.zip" "w"
      "507f191e810c19729de860ea" 5).fileWritten
      = some "tmp/solution/alice++++++solve.zip" ∧
    (UploadSolutionPOST false exampleDb "alice" "c1hex" true true 100 "solve.zip" "w"
      "507f191e810c19729de860ea" 5).success = true ∧
    (UploadSolutionPOST false exampleDb "alice" "c1hex" true true 100 "solve.zip" "w"
      "507f191e810c19729de860ea" 5).db.solutions = [] := by decide

/-- If the duplicate lookup returns a non-zero solution, the upload
handler rejects the request as a duplicate with nothing persisted,
nothing read and nothing written. -/
theorem upload_duplicate_branch (conn : Bool) (db : Db) (username hexidcrackme : String)
    (captchaOk filePresent : Bool) (declaredSize : Nat) (rawFilename info freshId : String)
    (now : Nat) (s : Solution)
    (hs : SolutionsByUserAndCrackMe conn db username hexidcrackme = .ok s)
    (hne : s ≠ ({} : Solution)) :
    UploadSolutionPOST conn db username hexidcrackme captchaOk filePresent declaredSize
        rawFilename info freshId now
      = { db := db, flash := .duplicateSolution } := by
  simp only [UploadSolutionPOST, hs]
  rw [if_pos hne]

/-- C6: given a non-deleted solution by author A for crackme C already in
the store (with its store-assigned nonempty hex id, as SolutionCreate
always assigns), every further upload attempt by A for C is rejected as a
duplicate with no new record persisted and no file written. -/
theorem duplicate_solution_rejected :
    ∀ (db : Db) (username hexidcrackme : String) (crackme : Crackme)
      (captchaOk filePresent : Bool) (declaredSize : Nat)
      (rawFilename info freshId : String) (now : Nat),
    db.crackmes.find? (fun c => c.hexId = hexidcrackme) = some crackme →
    (∃ s ∈ db.solutions, s.crackmeId = crackme.objectId ∧ s.author = username ∧
      s.deleted = false) →
    (∀ s ∈ db.solutions, s.crackmeId = crackme.objectId → s.author = username →
      s.hexId ≠ "") →
    UploadSolutionPOST true db username hexidcrackme captchaOk filePresent declaredSize
        rawFilename info freshId now
      = { db := db, flash := .duplicateSolution } := by
  intro db username hexidcrackme crackme captchaOk filePresent declaredSize raw info freshId now
    hfind hex hnz
  have hcb : CrackmeByHexId true db hexidcrackme = .ok crackme := by
    unfold CrackmeByHexId
    rw [if_pos rfl, hfind]
  have hpred : (db.solutions.find?
      (fun s => s.crackmeId = crackme.objectId && s.author = username)).isSome = true := by
    rw [List.find?_isSome]
    obtain ⟨s, hsm, h1, h2, _⟩ := hex
    exact ⟨s, hsm, by simp [h1, h2]⟩
  obtain ⟨s0, hs0⟩ := Option.isSome_iff_exists.mp hpred
  have hs0p := List.find?_some hs0
  have hs0m := List.mem_of_find?_eq_some hs0
  have hs0cr : s0.crackmeId = crackme.objectId ∧ s0.author = username := by
    simpa using hs0p
  have hnz0 : s0.hexId ≠ "" := hnz s0 hs0m hs0cr.1 hs0cr.2
  have hsol : SolutionsByUserAndCrackMe true db username hexidcrackme = .ok s0 := by
    unfold SolutionsByUserAndCrackMe
    rw [hcb]
    rw [if_pos rfl, hs0]
  refine upload_duplicate_branch true db username hexidcrackme captchaOk filePresent
    declaredSize raw info freshId now s0 hsol ?_
  intro he
  exact hnz0 (by rw [he])

def dupSolution : Solution :=
  { objectId := "s0hex", hexId := "s0hex", crackmeId := "c1hex", crackmeHexId := "c1hex",
    author := "alice", visible := false, deleted := false }

def dupDb : Db := { crackmes := [exampleCrackme], solutions := [dupSolution] }

/-- Witness for C6: alice, who already has a pending solution for the
crackme, is rejected on a second attempt. -/
theorem duplicate_solution_rejected_witness :
    UploadSolutionPOST true dupDb "alice" "c1hex" true true 100 "solve.zip" "w" "f1hex" 5
      = { db := dupDb, flash := .duplicateSolution } :=
  duplicate_solution_rejected dupDb "alice" "c1hex" exampleCrackme true true 100 "solve.zip"
    "w" "f1hex" 5 (by decide) (by decide) (by decide)

def pwUser : User :=
  { objectId := "u2", hexId := "u2", name := "frank", email := "frank@mail.example",
    password := "old", visible := true }

def pwDb : Db := { users := [pwUser] }

/-- C7 counterexample: with the store connection down, UpdateUserPassword
does not fail fast with the store-unavailable error; it attempts the
driver call (surfacing a driver failure instead). -/
theorem updateUserPassword_no_guard_counterexample :
    UpdateUserPassword false pwDb "frank" "new" = .error (.driver 1) ∧
    UpdateUserPassword false pwDb "frank" "new" ≠ .error .unavailable := by decide

/-- C7 (amended): every embedded Entity Store operation other than
UpdateUserPassword is guarded by CheckConnection and fails fast with the
distinct store-unavailable error when the connection is down;
UpdateUserPassword alone never returns that error — it validates its
inputs and then attempts the store call regardless of connection state. -/
theorem store_unavailable_fail_fast :
    ∀ (db : Db) (nm em hx ch txt user fresh : String) (now : Nat),
    CountUsers false db = .error .unavailable ∧
    UserByName false db nm = .error .unavailable ∧
    UserByMail false db em = .error .unavailable ∧
    UserByHexId false db hx = .error .unavailable ∧
    CrackmeByHexId false db ch = .error .unavailable ∧
    NotificationAdd false db nm txt now = .error .unavailable ∧
    CountCommentsByCrackme false db ch = .error .unavailable ∧
    CommentsByUser false db user = .error .unavailable ∧
    CommentCreate false db txt user ch fresh now = .error .unavailable ∧
    CountSolutionsByCrackme false db ch = .error .unavailable ∧
    SolutionsByUserAndCrackMe false db user ch = .error .unavailable ∧
    SolutionCreate false db txt user ch fresh now = .error .unavailable ∧
    UpdateUserPassword false db nm txt ≠ .error .unavailable := by
  intro db nm em hx ch txt user fresh now
  refine ⟨rfl, rfl, rfl, rfl, rfl, rfl, rfl, rfl, rfl, rfl, rfl, rfl, ?_⟩
  intro h
  unfold UpdateUserPassword at h
  split_ifs at h <;> simp_all

/-- Witness for C7 (amended): two representative conjuncts at a concrete
store. -/
theorem store_unavailable_fail_fast_witness :
    CountUsers false pwDb = .error .unavailable ∧
    UpdateUserPassword false pwDb "frank" "new" ≠ .error .unavailable := by
  have h := store_unavailable_fail_fast pwDb "frank" "frank@mail.example" "u2" "c1hex"
    "new" "frank" "s9hex" 5
  exact ⟨h.1, h.2.2.2.2.2.2.2.2.2.2.2.2⟩

/-- C8: when the requester has no prior solution for the crackme, an
upload with declared size 5,000,001 bytes is rejected outright — payload
never read, nothing persisted, nothing written — while one with declared
size exactly 5,000,000 passes the size check and has its payload read. -/
theorem upload_size_guard :
    ∀ (db : Db) (username hexidcrackme rawFilename info freshId : String) (now : Nat),
    (∀ s ∈ db.solutions, s.author ≠ username) →
    UploadSolutionPOST true db username hexidcrackme true true 5000001 rawFilename info
        freshId now
      = { db := db, flash := .fileTooLarge } ∧
    (UploadSolutionPOST true db username hexidcrackme true true 5000000 rawFilename info
        freshId now).payloadRead = true := by
  intro db username hexidcrackme raw info freshId now hnodup
  have hsol : ∀ c : String,
      db.solutions.find? (fun s => s.crackmeId = c && s.author = username) = none := by
    intro c
    rw [List.find?_eq_none]
    intro s hsm
    simp [hnodup s hsm]
  have hdup : SolutionsByUserAndCrackMe true db username hexidcrackme = .error .noResult := by
    unfold SolutionsByUserAndCrackMe
    rw [if_pos rfl, hsol]
  constructor
  · simp only [UploadSolutionPOST, hdup]
    rw [if_neg (fun hne => hne rfl)]
    rw [if_neg (by decide), if_neg (by decide), if_pos (by decide)]
  · simp only [UploadSolutionPOST, hdup]
    rw [if_neg (fun hne => hne rfl)]
    rw [if_neg (by decide), if_neg (by decide), if_neg (by decide)]
    split <;> rfl

/-- Witness for C8 at a store with no prior solutions. -/
theorem upload_size_guard_witness :
    UploadSolutionPOST true exampleDb "alice" "c1hex" true true 5000001 "solve.zip" "w"
        "f1hex" 5
      = { db := exampleDb, flash := .fileTooLarge } ∧
    (UploadSolutionPOST true exampleDb "alice" "c1hex" true true 5000000 "solve.zip" "w"
        "f1hex" 5).payloadRead = true :=
  upload_size_guard exampleDb "alice" "c1hex" "solve.zip" "w" "f1hex" 5 (by decide)

/-- C9: on a successful comment creation, a notification is added for
the crackme's author exactly when the commenting user is not that
author; when commenter and author coincide, the notification list is
unchanged. -/
theorem comment_notification_iff :
    ∀ (db : Db) (username hexid commentText freshId : String) (now : Nat) (crackme : Crackme),
    db.crackmes.find? (fun c => c.hexId = hexid) = some crackme →
    (LeaveCommentPOST true db username hexid commentText true true freshId now).success
      = true ∧
    (LeaveCommentPOST true db username hexid commentText true true freshId now).db.notifications
      = db.notifications ++
        (if crackme.author ≠ username then
          [⟨crackme.author,
            sconcat "New comment on your crackme "
              (sconcat crackme.name (sconcat " by: " username)), now⟩]
         else []) := by
  intro db username hexid ctext freshId now crackme hfind
  have hcb : CrackmeByHexId true db hexid = .ok crackme := by
    unfold CrackmeByHexId
    rw [if_pos rfl, hfind]
  have hcc : CommentCreate true db ctext username hexid freshId now
      = .ok { db with comments := db.comments ++
          [{ objectId := freshId, content := ctext, author := username,
             crackmeHexId := hexid, crackmeName := crackme.name,
             createdAt := now, visible := true, deleted := false }] } := by
    unfold CommentCreate
    rw [hcb]
    simp
  have hcb1 : CrackmeByHexId true { db with comments := db.comments ++
      [{ objectId := freshId, content := ctext, author := username,
         crackmeHexId := hexid, crackmeName := crackme.name,
         createdAt := now, visible := true, deleted := false }] } hexid = .ok crackme := by
    unfold CrackmeByHexId
    rw [if_pos rfl]
    dsimp only
    rw [hfind]
  simp only [LeaveCommentPOST, hcc, hcb1]
  rw [if_neg (by decide), if_neg (by decide)]
  by_cases ha : crackme.author = username
  · rw [if_neg (fun hne => hne ha), if_neg (fun hne => hne ha)]
    simp
  · rw [if_pos ha, if_pos ha]
    unfold NotificationAdd
    rw [if_pos rfl]
    simp

/-- Witness for C9: carol comments on bob's crackme and bob is
notified. -/
theorem comment_notification_iff_witness :
    (LeaveCommentPOST true exampleDb "carol" "c1hex" "nice" true true "m1" 5).success
      = true ∧
    (LeaveCommentPOST true exampleDb "carol" "c1hex" "nice" true true "m1" 5).db.notifications
      = exampleDb.notifications ++
        (if exampleCrackme.author ≠ "carol" then
          [⟨exampleCrackme.author,
            sconcat "New comment on your crackme "
              (sconcat exampleCrackme.name (sconcat " by: " "carol")), 5⟩]
         else []) :=
  comment_notification_iff exampleDb "carol" "c1hex" "nice" "m1" 5 exampleCrackme (by decide)

/-- C10: CommentsByUser returns at most the 50 newest visible comments
by the user: every returned comment is visible and authored by the
queried user, the list is ordered most-recently-created first, and its
length is the minimum of 50 and the number of matching comments —
comments beyond the 50 newest are silently omitted. -/
theorem commentsByUser_limited :
    ∀ (db : Db) (name : String) (result : List Comment),
    CommentsByUser true db name = .ok result →
    result.length
      = min 50 (db.comments.filter (fun c => c.author = name && c.visible)).length ∧
    (∀ c ∈ result, c.author = name ∧ c.visible = true) ∧
    result.Pairwise newerFirst := by
  intro db name result h
  unfold CommentsByUser at h
  rw [if_pos rfl] at h
  injection h with h
  subst h
  refine ⟨?_, ?_, ?_⟩
  · rw [List.length_take, List.length_insertionSort]
  · intro c hcm
    have h1 := List.mem_of_mem_take hcm
    have h2 := (List.mem_insertionSort newerFirst).mp h1
    have h3 := List.mem_filter.mp h2
    simpa using h3.2
  · exact List.Pairwise.sublist (List.take_sublist 50 _)
      (List.sorted_insertionSort newerFirst _)

def manyComments : List Comment :=
  [{ objectId := "m1", content := "a", author := "gail", crackmeHexId := "c1hex",
     createdAt := 1, visible := true },
   { objectId := "m2", content := "b", author := "gail", crackmeHexId := "c1hex",
     createdAt := 3, visible := true },
   { objectId := "m3", content := "c", author := "gail", crackmeHexId := "c1hex",
     createdAt := 2, visible := false }]

def commentsDb : Db := { comments := manyComments }

/-- Witness for C10 at a small concrete store: the two visible comments
come back, newest first. -/
theorem commentsByUser_limited_witness :
    (manyComments.get ⟨1, by decide⟩ :: [manyComments.get ⟨0, by decide⟩]).length
      = min 50 (commentsDb.comments.filter (fun c => c.author = "gail" && c.visible)).length ∧
    (∀ c ∈ manyComments.get ⟨1, by decide⟩ :: [manyComments.get ⟨0, by decide⟩],
      c.author = "gail" ∧ c.visible = true) ∧
    (manyComments.get ⟨1, by decide⟩ :: [manyComments.get ⟨0, by decide⟩]).Pairwise
      newerFirst :=
  commentsByUser_limited commentsDb "gail"
    (manyComments.get ⟨1, by decide⟩ :: [manyComments.get ⟨0, by decide⟩]) (by decide)

end CrackmesOne
